import Mathlib

/-!
A shallow embedding of `src/bot.py` (a Discord video-converter bot) and
proofs about it.

Modelling conventions:
* File sizes are in bytes (`Nat`).  The source compares
  `os.path.getsize(p) / (1024*1024) <= max_mb`; over exact arithmetic this
  is equivalent to `size_bytes <= max_mb * 1048576`, which is the form used
  here so that every definition evaluates inside the kernel.
* Timestamps are integers (seconds); `timedelta(days=d)` is `d * 86400`
  seconds and `timedelta(seconds=1)` is `1`.
* External collaborators (Discord gateway, yt-dlp, moviepy/ffmpeg) are
  oracles: each call site carries its outcome as data.  A download outcome
  is `Option (String × Nat)` (filename and size, or failure — the
  exception is caught inside `download_video`, which then returns an empty
  filename).  An encode outcome is `EncOutcome` (success with output size,
  or an exception that may or may not have left a partial output file).
  A reply outcome is a `Bool` (the exception is caught in the loop).
  The two `channel.history` calls can raise; nothing in the source catches
  them, so the model lets them abort the run (`Except.error`).
* The disk is an association list from filename to size.
-/

deriving instance DecidableEq for Except

namespace VideoBot

/-- `1024 * 1024`, the divisor in the source's `size / (1024 * 1024)`. -/
def bytesPerMB : Nat := 1024 * 1024

/-- bot.py line 10: `MAX_DISCORD_FILESIZE_MB = 8`. -/
def MAX_DISCORD_FILESIZE_MB : Nat := 8

/-- bot.py lines 11-14: the configured channel identifiers, in order. -/
def CHANNEL_IDS : List Nat :=
  [911164219238514688, 911164241216667678,
   1005713269094350938, 912017250909847623,
   912017322993139752, 912017388042592286,
   912017417142689872, 1218954199916871691]

/-- bot.py line 15: `LOG_CHANNEL_ID`. -/
def LOG_CHANNEL_ID : Nat := 1056057016235348039

/-- bot.py line 16: the default of `int(os.getenv('LOOKBACK_DAYS', 3))`. -/
def defaultLookbackDays : Int := 3

/-- The character class of bot.py line 20: `[\\/*?:"<>|]`. -/
def badChars : List Char := ['\\', '/', '*', '?', ':', '\"', '<', '>', '|']

/-- ASCII whitespace stripped by Python's `str.strip()`. -/
def pyWhitespace (c : Char) : Bool :=
  c = ' ' || c = '\t' || c = '\n' || c = '\r' || c = '\x0b' || c = '\x0c'

/-- Drop leading whitespace (the left half of `str.strip()`). -/
def ltrim (l : List Char) : List Char := l.dropWhile pyWhitespace

/-- Drop trailing whitespace (the right half of `str.strip()`). -/
def rtrim (l : List Char) : List Char := (l.reverse.dropWhile pyWhitespace).reverse

/-- Python `str.strip()` on a character list. -/
def stripChars (l : List Char) : List Char := rtrim (ltrim l)

/-- bot.py lines 18-20: `re.sub(r'[\\/*?:"<>|]', '', text).strip()`. -/
def sanitize_filename (s : String) : String :=
  ⟨stripChars (s.data.filter (fun c => !(badChars.contains c)))⟩

/-- Does `l` start with `pat`? -/
def startsWithChars : List Char → List Char → Bool
  | [], _ => true
  | _ :: _, [] => false
  | p :: ps, c :: cs => p = c && startsWithChars ps cs

/-- Does `l` contain `pat` as a contiguous run? -/
def containsChars (pat : List Char) : List Char → Bool
  | [] => startsWithChars pat []
  | c :: cs => startsWithChars pat (c :: cs) || containsChars pat cs

/-- Python's `pat in url` substring test. -/
def strContainsSub (s pat : String) : Bool := containsChars pat.data s.data

/-- bot.py lines 22-30: `get_platform`. -/
def get_platform (url : String) : String :=
  if strContainsSub url "instagram.com/reel" then "instagram"
  else if strContainsSub url "youtube.com" || strContainsSub url "youtu.be" then "youtube"
  else if strContainsSub url "reddit.com" then "reddit"
  else "unknown"

/-- The modelled disk: filenames with their sizes in bytes. -/
abbrev FileSys := List (String × Nat)

/-- `os.path.getsize` / `os.path.exists` probe. -/
def lookupSize : FileSys → String → Option Nat
  | [], _ => none
  | (q, sz) :: rest, p => if q = p then some sz else lookupSize rest p

/-- `os.path.exists`. -/
def existsFile (fs : FileSys) (p : String) : Bool := (lookupSize fs p).isSome

/-- `os.remove` (removes the name from the disk). -/
def removeFile : FileSys → String → FileSys
  | [], _ => []
  | (q, sz) :: rest, p => if q = p then removeFile rest p else (q, sz) :: removeFile rest p

/-- Creating (or overwriting) a file of a given size. -/
def writeFile (fs : FileSys) (p : String) (sz : Nat) : FileSys :=
  (p, sz) :: removeFile fs p

/-- Outcome of the external encode step inside `compress_video`
(`VideoFileClip`, `clip.duration`, `clip.write_videofile`):
either success producing an output of some size, or an exception that
may (`fail (some partialSize)`) or may not (`fail none`) have left a
partially written file at the output path. -/
inductive EncOutcome
  | ok (outSize : Nat)
  | fail (partialSize : Option Nat)
deriving DecidableEq

/-- The parameters the source hands to `clip.write_videofile`
(bot.py lines 71-81); the bitrate is the exact value of
`(max_mb * 8192) / duration` (the source formats `int(...)` of it, i.e.
its truncation, into the bitrate string). -/
structure EncodeCall where
  outPath : String
  bitrateKbps : ℚ
  codec : String
  audioCodec : String
deriving DecidableEq

/-- bot.py lines 58-86: `compress_video`.  The `os.path.getsize` probe on
line 60 runs before the `try` block, so a missing input file raises
(`Except.error`); every failure of the encode stage is caught and falls
back to the input path.  The third component records the encode invocation
when one was issued. -/
def compress_video (fs : FileSys) (input_path : String) (max_mb : Nat)
    (duration : ℚ) (enc : EncOutcome) :
    Except Unit (String × FileSys × Option EncodeCall) :=
  match lookupSize fs input_path with
  | none => .error ()
  | some sz =>
    if sz ≤ max_mb * bytesPerMB then
      .ok (input_path, fs, none)
    else
      let output_path := "compressed_" ++ input_path
      let target_bitrate : ℚ := ((max_mb : ℚ) * 8192) / duration
      let call : EncodeCall := ⟨output_path, target_bitrate, "libx264", "aac"⟩
      match enc with
      | .ok outSz => .ok (output_path, writeFile fs output_path outSz, some call)
      | .fail none => .ok (input_path, fs, none)
      | .fail (some psz) => .ok (input_path, writeFile fs output_path psz, some call)

/-- One URL extracted from a message, together with the oracle outcomes of
the external calls its processing will make: `dl` is the result of
`download_video` (`none` models the caught failure that returns an empty
filename), `duration` and `enc` feed `compress_video` if it is reached,
and `replyOk` is whether `msg.reply` succeeds. -/
structure UrlJob where
  url : String
  dl : Option (String × Nat)
  duration : ℚ
  enc : EncOutcome
  replyOk : Bool
deriving DecidableEq

/-- A Discord message: whether its author is the bot itself, its creation
time, and the URLs extracted from its content with their outcomes. -/
structure Msg where
  fromBot : Bool
  createdAt : Int
  jobs : List UrlJob
deriving DecidableEq

/-- A configured channel: its id, whether `client.get_channel` resolves it,
whether each of the two `channel.history` calls raises, and its full
message history (oldest first). -/
structure Chan where
  cid : Nat
  accessible : Bool
  histErr : Bool
  fetchErr : Bool
  msgs : List Msg
deriving DecidableEq

/-- The per-channel counters: an association list in configuration order
(bot.py line 98 builds `{channel_id: 0 for channel_id in CHANNEL_IDS}`;
for duplicate-free id lists this association list is that dict). -/
abbrev Counts := List (Nat × Nat)

/-- bot.py line 98: every configured channel starts at zero. -/
def initCounts (cs : List Chan) : Counts := cs.map (fun c => (c.cid, 0))

/-- bot.py line 144: `processed_counts[channel_id] += 1`. -/
def incrCount : Counts → Nat → Counts
  | [], _ => []
  | (k, v) :: rest, cid =>
    if k = cid then (k, v + 1) :: rest else (k, v) :: incrCount rest cid

/-- Reading one channel's counter. -/
def lookupCount : Counts → Nat → Option Nat
  | [], _ => none
  | (k, v) :: rest, cid => if k = cid then some v else lookupCount rest cid

/-- bot.py lines 109-119: scan the newest 500 messages (newest first) for
the bot's own last message; cursor is its creation time plus one second,
or `now - LOOKBACK_DAYS days` if none is found. -/
def resumeCursor (now lookbackDays : Int) (newestFirst : List Msg) : Int :=
  match (newestFirst.take 500).find? (fun m => m.fromBot) with
  | some m => m.createdAt + 1
  | none => now - lookbackDays * 86400

/-- bot.py line 122: `channel.history(after=last_time, oldest_first=True)`.
The Discord API returns exactly the messages created strictly after the
given instant, oldest first; `c.msgs` is oldest first already. -/
def fetchedMsgs (now lookbackDays : Int) (c : Chan) : List Msg :=
  c.msgs.filter (fun m => resumeCursor now lookbackDays c.msgs.reverse < m.createdAt)

/-- bot.py lines 127-152, one URL: classify, download, size-gate and
compress, reply (counting on success), then clean up.  The only
uncaught-exception path is `compress_video`'s size probe, which cannot
fire here because the downloaded file was just written. -/
def processUrl (cid : Nat) (maxMb : Nat) (j : UrlJob)
    (counts : Counts) (disk : FileSys) : Except Unit (Counts × FileSys) :=
  if get_platform j.url = "unknown" then .ok (counts, disk)
  else
    match j.dl with
    | none => .ok (counts, disk)
    | some (video_file, sz) =>
      let disk1 := writeFile disk video_file sz
      match (if maxMb * bytesPerMB < sz then
               compress_video disk1 video_file maxMb j.duration j.enc
             else .ok (video_file, disk1, none)) with
      | .error e => .error e
      | .ok (video_path, disk2, _) =>
        let counts1 := if j.replyOk then incrCount counts cid else counts
        let disk3 := if existsFile disk2 video_file then removeFile disk2 video_file else disk2
        let disk4 := if video_path ≠ video_file ∧ existsFile disk3 video_path then
                       removeFile disk3 video_path
                     else disk3
        .ok (counts1, disk4)

/-- bot.py line 127: the inner `for url in urls` loop. -/
def processJobs (cid : Nat) (maxMb : Nat) :
    List UrlJob → Counts → FileSys → Except Unit (Counts × FileSys)
  | [], counts, disk => .ok (counts, disk)
  | j :: rest, counts, disk => do
    let (counts1, disk1) ← processUrl cid maxMb j counts disk
    processJobs cid maxMb rest counts1 disk1

/-- bot.py line 124: the `for msg in new_messages` loop. -/
def processMsgs (cid : Nat) (maxMb : Nat) :
    List Msg → Counts → FileSys → Except Unit (Counts × FileSys)
  | [], counts, disk => .ok (counts, disk)
  | m :: rest, counts, disk => do
    let (counts1, disk1) ← processJobs cid maxMb m.jobs counts disk
    processMsgs cid maxMb rest counts1 disk1

/-- bot.py lines 109-154: one resolved channel.  The two `channel.history`
calls are not inside any `try`, so their failure aborts the run. -/
def processChannel (maxMb : Nat) (now lookbackDays : Int) (c : Chan)
    (counts : Counts) (disk : FileSys) : Except Unit (Counts × FileSys) :=
  if c.histErr then .error ()
  else if c.fetchErr then .error ()
  else processMsgs c.cid maxMb (fetchedMsgs now lookbackDays c) counts disk

/-- The mutable state threaded through the channel loop; `sleeps` records
every `asyncio.sleep(60)` that was executed, in order. -/
structure RunState where
  counts : Counts
  disk : FileSys
  sleeps : List Nat
deriving DecidableEq

/-- bot.py lines 100-159: the channel loop.  An unresolved channel hits
`continue` (line 104), which skips the rest of the body including the
sleep on line 159; the sleep runs only when `idx < len(CHANNEL_IDS) - 1`,
i.e. when the remaining list is nonempty. -/
def goChannels (maxMb : Nat) (now lookbackDays : Int) :
    List Chan → RunState → Except Unit RunState
  | [], st => .ok st
  | c :: rest, st =>
    if c.accessible then do
      let (counts1, disk1) ← processChannel maxMb now lookbackDays c st.counts st.disk
      let st1 : RunState :=
        ⟨counts1, disk1, if rest.isEmpty then st.sleeps else st.sleeps ++ [60]⟩
      goChannels maxMb now lookbackDays rest st1
    else goChannels maxMb now lookbackDays rest st

/-- One summary line (bot.py line 164):
`f"total {count} msg converted in <#{channel_id}>"`. -/
def summaryLine (cid count : Nat) : String :=
  "total " ++ toString count ++ " msg converted in <#" ++ toString cid ++ ">"

/-- bot.py line 164: the joined summary block. -/
def summaryText (counts : Counts) : String :=
  String.intercalate "\n" (counts.map (fun p => summaryLine p.1 p.2))

/-- One whole run's inputs: the configured channels with their oracle
outcomes, the current time, the lookback setting, the size ceiling,
whether the log channel resolves and whether the summary send succeeds. -/
structure Env where
  channels : List Chan
  now : Int
  lookbackDays : Int
  maxMb : Nat
  logChannelOk : Bool
  sendOk : Bool
deriving DecidableEq

/-- What a completed run produced; `summarySent` is the message actually
delivered to the log channel, if any. -/
structure RunResult where
  counts : Counts
  disk : FileSys
  sleeps : List Nat
  summarySent : Option String
deriving DecidableEq

/-- bot.py lines 94-173: `on_ready`.  Initialize the counters, walk the
channels, then (lines 161-171) resolve the log channel and try to send the
summary; a send failure is caught, an unresolved log channel is only
logged. -/
def on_ready (env : Env) : Except Unit RunResult := do
  let st0 : RunState := ⟨initCounts env.channels, [], []⟩
  let st ← goChannels env.maxMb env.now env.lookbackDays env.channels st0
  let sent : Option String :=
    if env.logChannelOk then
      let s := summaryText st.counts
      let text := if s = "" then "No messages processed." else s
      if env.sendOk then some text else none
    else none
  .ok ⟨st.counts, st.disk, st.sleeps, sent⟩

/-- A URL's processing increments its channel's counter exactly when the
platform is recognized, the download succeeded (nonempty filename) and the
reply succeeded. -/
def urlSuccess (j : UrlJob) : Bool :=
  (get_platform j.url != "unknown") && j.dl.isSome && j.replyOk

/-- Number of counter increments one message contributes: one per
successfully replied URL. -/
def msgSuccesses (m : Msg) : Nat := m.jobs.countP urlSuccess

/-- Number of counter increments one accessible channel contributes. -/
def chanSuccesses (now lookbackDays : Int) (c : Chan) : Nat :=
  ((fetchedMsgs now lookbackDays c).map msgSuccesses).sum

/-- `n`-fold increment of one channel's counter. -/
def incrN (counts : Counts) (cid : Nat) : Nat → Counts
  | 0 => counts
  | n + 1 => incrCount (incrN counts cid n) cid

/-- The counter evolution of the whole channel loop. -/
def applyCounts (now lookbackDays : Int) : List Chan → Counts → Counts
  | [], acc => acc
  | c :: rest, acc =>
    applyCounts now lookbackDays rest
      (if c.accessible then incrN acc c.cid (chanSuccesses now lookbackDays c) else acc)

/-- The sleeps the channel loop performs: 60 seconds after every channel
that was resolved and is not the last configured one. -/
def sleepsOf : List Chan → List Nat
  | [] => []
  | c :: rest =>
    (if c.accessible && !rest.isEmpty then [60] else []) ++ sleepsOf rest

/-- The counters a completed run ends with. -/
def finalCounts (env : Env) : Counts :=
  applyCounts env.now env.lookbackDays env.channels (initCounts env.channels)

/-- The summary message a completed run delivers to the log channel, if
any (bot.py lines 161-169: `summary if summary else "No messages
processed."`, sent only when the log channel resolves and the send does
not raise). -/
def sentSummary (env : Env) : Option String :=
  if env.logChannelOk then
    if env.sendOk then
      some (if summaryText (finalCounts env) = "" then "No messages processed."
            else summaryText (finalCounts env))
    else none
  else none

/-! ### Concrete channels, jobs and runs used in the closed theorems below -/

/-- A small downloaded video (1000 bytes, below the ceiling), replied
successfully. -/
def jA : UrlJob := ⟨"https://youtu.be/a", some ("a.mp4", 1000), 4, .ok 0, true⟩

/-- A second small successful download from the same message. -/
def jB : UrlJob := ⟨"https://youtube.com/watch", some ("b.mp4", 1000), 4, .ok 0, true⟩

/-- One user message holding two recognized platform URLs, both replied. -/
def mC1 : Msg := ⟨false, 100, [jA, jB]⟩

/-- A channel whose whole new history is the one two-URL message. -/
def cC1 : Chan := ⟨5, true, false, false, [mC1]⟩

/-- A run over just that channel (cursor falls back to `now`, 50). -/
def envC1 : Env := ⟨[cC1], 50, 0, MAX_DISCORD_FILESIZE_MB, true, true⟩

/-- An accessible channel whose first `channel.history` call raises. -/
def cHist : Chan := ⟨3, true, true, false, []⟩

/-- A run over just that channel. -/
def envC2 : Env := ⟨[cHist], 0, defaultLookbackDays, MAX_DISCORD_FILESIZE_MB, true, true⟩

/-- A run over one error-free empty channel. -/
def envC2w : Env := ⟨[⟨4, true, false, false, []⟩], 0, defaultLookbackDays, MAX_DISCORD_FILESIZE_MB, true, true⟩

/-- A 9 MiB download whose compression raises after writing a 999-byte
partial output, and whose reply also fails. -/
def jC3 : UrlJob := ⟨"https://youtu.be/x", some ("v.mp4", 9437184), 4, .fail (some 999), false⟩

/-- A 9 MiB download whose compression succeeds and reply succeeds. -/
def jC3w : UrlJob := ⟨"https://youtu.be/y", some ("w.mp4", 9437184), 4, .ok 100, true⟩

/-- An inaccessible configured channel (`get_channel` returns `None`). -/
def cSkip : Chan := ⟨1, false, false, false, []⟩

/-- An accessible, empty, error-free channel. -/
def cLast : Chan := ⟨2, true, false, false, []⟩

/-- A run whose first configured channel is skipped as inaccessible. -/
def envC4 : Env := ⟨[cSkip, cLast], 0, defaultLookbackDays, MAX_DISCORD_FILESIZE_MB, true, true⟩

/-- A run over accessible, inaccessible, accessible channels. -/
def envC4w : Env :=
  ⟨[⟨1, true, false, false, []⟩, ⟨2, false, false, false, []⟩, ⟨6, true, false, false, []⟩],
   0, defaultLookbackDays, MAX_DISCORD_FILESIZE_MB, true, true⟩

/-- A channel holding (oldest first) a bot message at time 10 and a user
message at time 20. -/
def cC5 : Chan := ⟨9, true, false, false, [⟨true, 10, []⟩, ⟨false, 20, []⟩]⟩

/-- A successful one-URL job for the summary example. -/
def jY1 : UrlJob := ⟨"https://youtu.be/1", some ("y1.mp4", 1000), 4, .ok 0, true⟩

/-- A second successful one-URL job for the summary example. -/
def jY2 : UrlJob := ⟨"https://youtu.be/2", some ("y2.mp4", 1000), 4, .ok 0, true⟩

/-- Channel A of the spec's summary example: two converted messages. -/
def cA9 : Chan := ⟨1, true, false, false, [⟨false, 100, [jY1]⟩, ⟨false, 101, [jY2]⟩]⟩

/-- Channel B of the spec's summary example: nothing converted. -/
def cB9 : Chan := ⟨2, true, false, false, []⟩

/-- The run realizing processed counts A ↦ 2, B ↦ 0. -/
def envC9 : Env := ⟨[cA9, cB9], 50, 0, MAX_DISCORD_FILESIZE_MB, true, true⟩

/-- Disk holding one 9 MiB file (above the 8 MB ceiling). -/
def fsBig : FileSys := [("a.mp4", 9437184)]

/-- Disk holding one 100-byte file (below the ceiling). -/
def fsSmall : FileSys := [("b.mp4", 100)]

/-! ### Association-list disk lemmas -/

theorem lookupSize_writeFile_self (fs : FileSys) (p : String) (sz : Nat) :
    lookupSize (writeFile fs p sz) p = some sz := by
  simp [writeFile, lookupSize]

theorem lookupSize_removeFile_self (fs : FileSys) (p : String) :
    lookupSize (removeFile fs p) p = none := by
  induction fs with
  | nil => rfl
  | cons e rest ih =>
    obtain ⟨q, sz⟩ := e
    by_cases h : q = p
    · simpa [removeFile, h] using ih
    · simpa [removeFile, h, lookupSize] using ih

theorem lookupSize_removeFile_ne (fs : FileSys) (p q : String) (h : q ≠ p) :
    lookupSize (removeFile fs p) q = lookupSize fs q := by
  induction fs with
  | nil => rfl
  | cons e rest ih =>
    obtain ⟨r, sz⟩ := e
    by_cases hr : r = p
    · have hpq : ¬ p = q := fun hh => h hh.symm
      simpa [removeFile, hr, lookupSize, hpq] using ih
    · by_cases hq : r = q
      · simp [removeFile, hq, h, lookupSize]
      · simpa [removeFile, hr, hq, lookupSize] using ih

theorem lookupSize_writeFile_ne (fs : FileSys) (p q : String) (sz : Nat) (h : q ≠ p) :
    lookupSize (writeFile fs p sz) q = lookupSize fs q := by
  simp only [writeFile, lookupSize]
  rw [if_neg (fun hh => h hh.symm), lookupSize_removeFile_ne fs p q h]

/-- The derived output name never collides with the input name. -/
theorem compressed_ne (f : String) : "compressed_" ++ f ≠ f := by
  intro h
  have hl : ("compressed_" ++ f).length = f.length := congrArg String.length h
  rw [String.length_append] at hl
  have h11 : ("compressed_" : String).length = 11 := rfl
  omega

/-! ### Claim C6: the size gate of `compress_video` -/

/-- C6 (confirmed).  For every input path with a known size and every
ceiling: at or below the ceiling `compress_video` returns the input path
unchanged and creates no file; above it, when the encode succeeds, it
issues exactly one encode call at bitrate `(max_mb * 8192) / duration`
kilobits per second with codecs libx264/aac, writing to
`compressed_<original>`, and returns that derived path. -/
theorem compress_video_size_gate (fs : FileSys) (p : String) (max_mb : Nat)
    (dur : ℚ) (enc : EncOutcome) (sz : Nat) (h : lookupSize fs p = some sz) :
    (sz ≤ max_mb * bytesPerMB → compress_video fs p max_mb dur enc = .ok (p, fs, none)) ∧
    (max_mb * bytesPerMB < sz → ∀ osz, enc = .ok osz →
      compress_video fs p max_mb dur enc =
        .ok ("compressed_" ++ p, writeFile fs ("compressed_" ++ p) osz,
             some ⟨"compressed_" ++ p, ((max_mb : ℚ) * 8192) / dur, "libx264", "aac"⟩)) := by
  constructor
  · intro hle
    simp [compress_video, h, hle]
  · intro hlt osz henc
    subst henc
    simp [compress_video, h, Nat.not_le.mpr hlt]

/-- Witness for C6 at concrete inputs: a 9437184-byte file exceeds the
8 MB ceiling and is re-encoded to the derived path; a 100-byte file is
passed through with the disk untouched. -/
theorem compress_video_size_gate_witness :
    lookupSize fsBig "a.mp4" = some 9437184 ∧
    MAX_DISCORD_FILESIZE_MB * bytesPerMB < 9437184 ∧
    compress_video fsBig "a.mp4" MAX_DISCORD_FILESIZE_MB 4 (.ok 100) =
      .ok ("compressed_" ++ "a.mp4", writeFile fsBig ("compressed_" ++ "a.mp4") 100,
           some ⟨"compressed_" ++ "a.mp4", ((MAX_DISCORD_FILESIZE_MB : ℚ) * 8192) / 4,
                 "libx264", "aac"⟩) ∧
    compress_video fsSmall "b.mp4" MAX_DISCORD_FILESIZE_MB 4 (.ok 100) =
      .ok ("b.mp4", fsSmall, none) :=
  ⟨by decide, by decide,
   (compress_video_size_gate fsBig "a.mp4" MAX_DISCORD_FILESIZE_MB 4 (.ok 100) 9437184
      (by decide)).2 (by decide) 100 rfl,
   (compress_video_size_gate fsSmall "b.mp4" MAX_DISCORD_FILESIZE_MB 4 (.ok 100) 100
      (by decide)).1 (by decide)⟩

/-! ### Claim C7: compression failure falls back to the original path -/

/-- C7 (confirmed).  For every oversized input, if the encode stage fails
in any way (`.fail pOpt`, whether or not a partial output was left),
`compress_video` still returns `.ok` with the original input path. -/
theorem compress_video_failure_fallback (fs : FileSys) (p : String) (max_mb : Nat)
    (dur : ℚ) (pOpt : Option Nat) (sz : Nat) (h : lookupSize fs p = some sz)
    (hlt : max_mb * bytesPerMB < sz) :
    ∃ d call, compress_video fs p max_mb dur (.fail pOpt) = .ok (p, d, call) := by
  cases pOpt with
  | none => exact ⟨fs, none, by simp [compress_video, h, Nat.not_le.mpr hlt]⟩
  | some psz =>
    exact ⟨writeFile fs ("compressed_" ++ p) psz,
           some ⟨"compressed_" ++ p, ((max_mb : ℚ) * 8192) / dur, "libx264", "aac"⟩,
           by simp [compress_video, h, Nat.not_le.mpr hlt]⟩

/-- Witness for C7: the oversized 9437184-byte file with a failing encode
still yields `.ok` with path "a.mp4". -/
theorem compress_video_failure_fallback_witness :
    lookupSize fsBig "a.mp4" = some 9437184 ∧
    MAX_DISCORD_FILESIZE_MB * bytesPerMB < 9437184 ∧
    (∃ d call, compress_video fsBig "a.mp4" MAX_DISCORD_FILESIZE_MB 4 (.fail (some 999)) =
        .ok ("a.mp4", d, call)) :=
  ⟨by decide, by decide,
   compress_video_failure_fallback fsBig "a.mp4" MAX_DISCORD_FILESIZE_MB 4 (some 999)
     9437184 (by decide) (by decide)⟩

/-! ### Claim C10: `compress_video` raises exactly on a missing input -/

/-- C10 (confirmed).  The `os.path.getsize` probe runs before the `try`
block: on a nonexistent input path `compress_video` raises
(`Except.error`) instead of returning the fallback, and on an existing
path it always returns a path (the catch-all covers only the encode
stage). -/
theorem compress_video_requires_input_file (fs : FileSys) (p : String) (max_mb : Nat)
    (dur : ℚ) (enc : EncOutcome) :
    (lookupSize fs p = none → compress_video fs p max_mb dur enc = .error ()) ∧
    (∀ sz, lookupSize fs p = some sz → ∃ out, compress_video fs p max_mb dur enc = .ok out) := by
  constructor
  · intro h
    simp [compress_video, h]
  · intro sz h
    by_cases hle : sz ≤ max_mb * bytesPerMB
    · exact ⟨(p, fs, none), by simp [compress_video, h, hle]⟩
    · cases enc with
      | ok osz =>
        exact ⟨("compressed_" ++ p, writeFile fs ("compressed_" ++ p) osz,
                some ⟨"compressed_" ++ p, ((max_mb : ℚ) * 8192) / dur, "libx264", "aac"⟩),
               by simp [compress_video, h, hle]⟩
      | fail pOpt =>
        cases pOpt with
        | none => exact ⟨(p, fs, none), by simp [compress_video, h, hle]⟩
        | some psz =>
          exact ⟨(p, writeFile fs ("compressed_" ++ p) psz,
                  some ⟨"compressed_" ++ p, ((max_mb : ℚ) * 8192) / dur, "libx264", "aac"⟩),
                 by simp [compress_video, h, hle]⟩

/-- Witness for C10: on an empty disk the call raises; on a disk holding
the file it returns `.ok`. -/
theorem compress_video_requires_input_file_witness :
    lookupSize ([] : FileSys) "a.mp4" = none ∧
    compress_video [] "a.mp4" MAX_DISCORD_FILESIZE_MB 4 (.ok 100) = .error () ∧
    (∃ out, compress_video fsBig "a.mp4" MAX_DISCORD_FILESIZE_MB 4 (.ok 100) = .ok out) :=
  ⟨by decide,
   (compress_video_requires_input_file [] "a.mp4" MAX_DISCORD_FILESIZE_MB 4 (.ok 100)).1
     (by decide),
   (compress_video_requires_input_file fsBig "a.mp4" MAX_DISCORD_FILESIZE_MB 4 (.ok 100)).2
     9437184 (by decide)⟩

/-! ### Claim C8: `sanitize_filename` -/

theorem dropWhile_idem {α : Type} (p : α → Bool) (l : List α) :
    (l.dropWhile p).dropWhile p = l.dropWhile p := by
  induction l with
  | nil => rfl
  | cons x xs ih =>
    by_cases h : p x
    · simpa [List.dropWhile_cons, h] using ih
    · simp [List.dropWhile_cons, h]

theorem dropWhile_suffix_decomp {α : Type} (p : α → Bool) (l : List α) :
    ∃ t, l = t ++ l.dropWhile p := by
  induction l with
  | nil => exact ⟨[], rfl⟩
  | cons x xs ih =>
    by_cases h : p x
    · obtain ⟨t, ht⟩ := ih
      refine ⟨x :: t, ?_⟩
      simp [List.dropWhile_cons, h]
      exact ht
    · exact ⟨[], by simp [List.dropWhile_cons, h]⟩

theorem head?_dropWhile {α : Type} (p : α → Bool) (l : List α) (c : α)
    (h : (l.dropWhile p).head? = some c) : p c = false := by
  induction l with
  | nil => simp [List.dropWhile] at h
  | cons x xs ih =>
    by_cases hx : p x
    · exact ih (by simpa [List.dropWhile_cons, hx] using h)
    · have hxc : x = c := by simpa [List.dropWhile_cons, hx] using h
      subst hxc
      simpa using hx

theorem dropWhile_eq_self_of_head {α : Type} (p : α → Bool) (l : List α)
    (h : ∀ c, l.head? = some c → p c = false) : l.dropWhile p = l := by
  cases l with
  | nil => rfl
  | cons x xs => simp [List.dropWhile_cons, h x rfl]

theorem mem_of_mem_dropWhile {α : Type} (p : α → Bool) (l : List α) (c : α)
    (h : c ∈ l.dropWhile p) : c ∈ l := by
  obtain ⟨t, ht⟩ := dropWhile_suffix_decomp p l
  rw [ht]
  exact List.mem_append_right t h

theorem rtrim_decomp (l : List Char) : ∃ t, l = rtrim l ++ t := by
  obtain ⟨t, ht⟩ := dropWhile_suffix_decomp pyWhitespace l.reverse
  refine ⟨t.reverse, ?_⟩
  have h2 := congrArg List.reverse ht
  simpa [rtrim, List.reverse_append] using h2

theorem rtrim_idem (l : List Char) : rtrim (rtrim l) = rtrim l := by
  simp [rtrim, List.reverse_reverse, dropWhile_idem]

theorem mem_of_mem_stripChars (l : List Char) (c : Char) (h : c ∈ stripChars l) : c ∈ l := by
  obtain ⟨t, ht⟩ := rtrim_decomp (ltrim l)
  have h1 : c ∈ ltrim l := by
    rw [ht]
    exact List.mem_append_left _ h
  exact mem_of_mem_dropWhile _ _ _ h1

theorem stripChars_head? (l : List Char) (c : Char)
    (h : (stripChars l).head? = some c) : pyWhitespace c = false := by
  obtain ⟨t, ht⟩ := rtrim_decomp (ltrim l)
  have hh : (ltrim l).head? = some c := by
    rw [ht]
    cases hs : rtrim (ltrim l) with
    | nil =>
      simp only [stripChars, hs] at h
      cases h
    | cons a rest =>
      have hac : a = c := by
        simp only [stripChars, hs] at h
        simpa using h
      subst hac
      simp
  exact head?_dropWhile pyWhitespace l c hh

theorem stripChars_getLast? (l : List Char) (c : Char)
    (h : (stripChars l).getLast? = some c) : pyWhitespace c = false := by
  have hrev : (stripChars l).reverse = (ltrim l).reverse.dropWhile pyWhitespace := by
    simp [stripChars, rtrim, List.reverse_reverse]
  have hh : ((ltrim l).reverse.dropWhile pyWhitespace).head? = some c := by
    rw [← hrev, List.head?_reverse]
    exact h
  exact head?_dropWhile _ _ _ hh

theorem stripChars_idem (l : List Char) : stripChars (stripChars l) = stripChars l := by
  have h1 : ltrim (stripChars l) = stripChars l :=
    dropWhile_eq_self_of_head _ _ (fun c hc => stripChars_head? l c hc)
  show rtrim (ltrim (stripChars l)) = stripChars l
  rw [h1]
  show rtrim (rtrim (ltrim l)) = rtrim (ltrim l)
  exact rtrim_idem _

/-- C8 (confirmed).  For every input string, `sanitize_filename` removes
every occurrence of the characters `\ / * ? : " < > |` (none remains in
the output), trims leading and trailing whitespace (the output neither
starts nor ends with a whitespace character), and is idempotent. -/
theorem sanitize_filename_spec (s : String) :
    (∀ c ∈ (sanitize_filename s).data, badChars.contains c = false) ∧
    (∀ c, (sanitize_filename s).data.head? = some c → pyWhitespace c = false) ∧
    (∀ c, (sanitize_filename s).data.getLast? = some c → pyWhitespace c = false) ∧
    sanitize_filename (sanitize_filename s) = sanitize_filename s := by
  have hmem : ∀ c ∈ (sanitize_filename s).data, badChars.contains c = false := by
    intro c hc
    have h1 : c ∈ s.data.filter (fun c => !(badChars.contains c)) :=
      mem_of_mem_stripChars _ c hc
    have h2 := List.of_mem_filter h1
    simpa using h2
  refine ⟨hmem, fun c hc => stripChars_head? _ c hc, fun c hc => stripChars_getLast? _ c hc, ?_⟩
  apply String.ext
  show stripChars ((sanitize_filename s).data.filter (fun c => !(badChars.contains c))) =
    (sanitize_filename s).data
  have hfil : (sanitize_filename s).data.filter (fun c => !(badChars.contains c)) =
      (sanitize_filename s).data := by
    rw [List.filter_eq_self]
    intro a ha
    simpa using hmem a ha
  rw [hfil]
  show stripChars (stripChars (s.data.filter (fun c => !(badChars.contains c)))) =
    stripChars (s.data.filter (fun c => !(badChars.contains c)))
  exact stripChars_idem _

/-! ### Counter lemmas -/

theorem incrCount_keys (counts : Counts) (cid : Nat) :
    (incrCount counts cid).map Prod.fst = counts.map Prod.fst := by
  induction counts with
  | nil => rfl
  | cons e rest ih =>
    obtain ⟨k, v⟩ := e
    by_cases h : k = cid
    · simp [incrCount, h]
    · simp [incrCount, h, ih]

theorem lookupCount_incrCount_ne (counts : Counts) (cid k : Nat) (h : k ≠ cid) :
    lookupCount (incrCount counts cid) k = lookupCount counts k := by
  induction counts with
  | nil => rfl
  | cons e rest ih =>
    obtain ⟨r, v⟩ := e
    by_cases hr : r = cid
    · subst hr
      have hck : ¬ r = k := fun hh => h hh.symm
      simp [incrCount, lookupCount, hck]
    · by_cases hk : r = k
      · subst hk
        simp [incrCount, hr, lookupCount]
      · simp [incrCount, hr, lookupCount, hk, ih]

theorem lookupCount_incrCount_self (counts : Counts) (cid v : Nat)
    (h : lookupCount counts cid = some v) :
    lookupCount (incrCount counts cid) cid = some (v + 1) := by
  induction counts with
  | nil => cases h
  | cons e rest ih =>
    obtain ⟨r, w⟩ := e
    by_cases hr : r = cid
    · subst hr
      have hw : w = v := by simpa [lookupCount] using h
      simp [incrCount, lookupCount, hw]
    · simp only [lookupCount, if_neg hr] at h
      simp [incrCount, hr, lookupCount, ih h]

theorem incrN_keys (counts : Counts) (cid n : Nat) :
    (incrN counts cid n).map Prod.fst = counts.map Prod.fst := by
  induction n with
  | zero => rfl
  | succ n ih => rw [incrN, incrCount_keys, ih]

theorem lookupCount_incrN_ne (counts : Counts) (cid k n : Nat) (h : k ≠ cid) :
    lookupCount (incrN counts cid n) k = lookupCount counts k := by
  induction n with
  | zero => rfl
  | succ n ih => rw [incrN, lookupCount_incrCount_ne _ _ _ h, ih]

theorem lookupCount_incrN_self (counts : Counts) (cid v n : Nat)
    (h : lookupCount counts cid = some v) :
    lookupCount (incrN counts cid n) cid = some (v + n) := by
  induction n with
  | zero => simpa using h
  | succ n ih =>
    rw [incrN]
    have h2 := lookupCount_incrCount_self _ _ _ ih
    rw [h2, Nat.add_assoc]

theorem incrN_incrCount_comm (counts : Counts) (cid n : Nat) :
    incrN (incrCount counts cid) cid n = incrCount (incrN counts cid n) cid := by
  induction n with
  | zero => rfl
  | succ n ih => rw [incrN, ih, incrN]

theorem incrN_add (counts : Counts) (cid a b : Nat) :
    incrN counts cid (a + b) = incrN (incrN counts cid a) cid b := by
  induction b with
  | zero => rfl
  | succ b ih => rw [Nat.add_succ, incrN, incrN, ih]

/-! ### The per-URL / per-message / per-channel counter evolution -/

theorem exists_of_map_fst {e : Except Unit (Counts × FileSys)} {c : Counts}
    (h : e.map Prod.fst = Except.ok c) : ∃ d, e = Except.ok (c, d) := by
  cases e with
  | error u => simp [Except.map] at h
  | ok pr =>
    obtain ⟨a, b⟩ := pr
    simp only [Except.map, Except.ok.injEq] at h
    exact ⟨b, by rw [h]⟩

theorem processUrl_counts (cid maxMb : Nat) (j : UrlJob) (counts : Counts) (disk : FileSys) :
    (processUrl cid maxMb j counts disk).map Prod.fst =
      Except.ok (if urlSuccess j then incrCount counts cid else counts) := by
  by_cases hp : get_platform j.url = "unknown"
  · have hu : urlSuccess j = false := by simp [urlSuccess, hp]
    simp [processUrl, hp, hu, Except.map]
  · cases hdl : j.dl with
    | none =>
      have hu : urlSuccess j = false := by simp [urlSuccess, hdl]
      simp [processUrl, hp, hdl, hu, Except.map]
    | some pr =>
      obtain ⟨f, sz⟩ := pr
      have hu : urlSuccess j = j.replyOk := by simp [urlSuccess, hdl, hp]
      by_cases hsz : maxMb * bytesPerMB < sz
      · cases henc : j.enc with
        | ok osz =>
          simp [processUrl, hp, hdl, hsz, henc, compress_video,
                lookupSize_writeFile_self, Nat.not_le.mpr hsz, hu, Except.map]
        | fail pOpt =>
          cases pOpt with
          | none =>
            simp [processUrl, hp, hdl, hsz, henc, compress_video,
                  lookupSize_writeFile_self, Nat.not_le.mpr hsz, hu, Except.map]
          | some psz =>
            simp [processUrl, hp, hdl, hsz, henc, compress_video,
                  lookupSize_writeFile_self, Nat.not_le.mpr hsz, hu, Except.map]
      · simp [processUrl, hp, hdl, hsz, hu, Except.map]

theorem processJobs_counts (cid maxMb : Nat) (jobs : List UrlJob) :
    ∀ (counts : Counts) (disk : FileSys),
    (processJobs cid maxMb jobs counts disk).map Prod.fst =
      Except.ok (incrN counts cid (jobs.countP urlSuccess)) := by
  induction jobs with
  | nil => intro counts disk; simp [processJobs, Except.map, incrN]
  | cons j rest ih =>
    intro counts disk
    obtain ⟨d1, hd1⟩ := exists_of_map_fst (processUrl_counts cid maxMb j counts disk)
    have hstep : processJobs cid maxMb (j :: rest) counts disk =
        processJobs cid maxMb rest (if urlSuccess j then incrCount counts cid else counts) d1 := by
      simp only [processJobs]
      rw [hd1]
      rfl
    rw [hstep, ih, List.countP_cons]
    by_cases hu : urlSuccess j = true
    · simp [hu, incrN, incrN_incrCount_comm]
    · simp [hu]

theorem processMsgs_counts (cid maxMb : Nat) (msgs : List Msg) :
    ∀ (counts : Counts) (disk : FileSys),
    (processMsgs cid maxMb msgs counts disk).map Prod.fst =
      Except.ok (incrN counts cid ((msgs.map msgSuccesses).sum)) := by
  induction msgs with
  | nil => intro counts disk; simp [processMsgs, Except.map, incrN]
  | cons m rest ih =>
    intro counts disk
    obtain ⟨d1, hd1⟩ := exists_of_map_fst (processJobs_counts cid maxMb m.jobs counts disk)
    have hstep : processMsgs cid maxMb (m :: rest) counts disk =
        processMsgs cid maxMb rest (incrN counts cid (m.jobs.countP urlSuccess)) d1 := by
      simp only [processMsgs]
      rw [hd1]
      rfl
    rw [hstep, ih]
    rw [List.map_cons, List.sum_cons, incrN_add]
    rfl

theorem processChannel_counts (maxMb : Nat) (now lb : Int) (c : Chan)
    (counts : Counts) (disk : FileSys)
    (h1 : c.histErr = false) (h2 : c.fetchErr = false) :
    (processChannel maxMb now lb c counts disk).map Prod.fst =
      Except.ok (incrN counts c.cid (chanSuccesses now lb c)) := by
  rw [processChannel, if_neg (by simp [h1]), if_neg (by simp [h2])]
  exact processMsgs_counts c.cid maxMb (fetchedMsgs now lb c) counts disk

/-! ### The channel loop -/

theorem goChannels_ok (maxMb : Nat) (now lb : Int) (cs : List Chan) :
    ∀ (st : RunState),
    (∀ c ∈ cs, c.accessible = true → c.histErr = false ∧ c.fetchErr = false) →
    ∃ d, goChannels maxMb now lb cs st =
      Except.ok ⟨applyCounts now lb cs st.counts, d, st.sleeps ++ sleepsOf cs⟩ := by
  induction cs with
  | nil =>
    intro st h
    exact ⟨st.disk, by simp [goChannels, applyCounts, sleepsOf]⟩
  | cons c rest ih =>
    intro st h
    by_cases hacc : c.accessible
    · have hce := h c (List.mem_cons_self c rest) hacc
      obtain ⟨d1, hd1⟩ :=
        exists_of_map_fst (processChannel_counts maxMb now lb c st.counts st.disk hce.1 hce.2)
      obtain ⟨d, hd⟩ :=
        ih ⟨incrN st.counts c.cid (chanSuccesses now lb c), d1,
            if rest.isEmpty then st.sleeps else st.sleeps ++ [60]⟩
          (fun c' hc' => h c' (List.mem_cons_of_mem c hc'))
      refine ⟨d, ?_⟩
      have hstep : goChannels maxMb now lb (c :: rest) st =
          goChannels maxMb now lb rest
            ⟨incrN st.counts c.cid (chanSuccesses now lb c), d1,
             if rest.isEmpty then st.sleeps else st.sleeps ++ [60]⟩ := by
        simp only [goChannels, if_pos hacc]
        rw [hd1]
        rfl
      rw [hstep, hd]
      have hcounts : applyCounts now lb rest (incrN st.counts c.cid (chanSuccesses now lb c)) =
          applyCounts now lb (c :: rest) st.counts := by
        rw [applyCounts, if_pos hacc]
      have hsleeps : (if rest.isEmpty then st.sleeps else st.sleeps ++ [60]) ++ sleepsOf rest =
          st.sleeps ++ sleepsOf (c :: rest) := by
        cases rest with
        | nil => simp [sleepsOf]
        | cons r rs => simp [sleepsOf, hacc, List.append_assoc]
      rw [hcounts, hsleeps]
    · have hstep : goChannels maxMb now lb (c :: rest) st = goChannels maxMb now lb rest st := by
        simp [goChannels, hacc]
      obtain ⟨d, hd⟩ := ih st (fun c' hc' => h c' (List.mem_cons_of_mem c hc'))
      refine ⟨d, ?_⟩
      rw [hstep, hd]
      have hb : c.accessible = false := by simpa using hacc
      have hcounts : applyCounts now lb rest st.counts = applyCounts now lb (c :: rest) st.counts := by
        rw [applyCounts, if_neg (by simp [hb])]
      have hsleeps : st.sleeps ++ sleepsOf rest = st.sleeps ++ sleepsOf (c :: rest) := by
        rw [sleepsOf, hb]
        simp
      rw [hcounts, hsleeps]

theorem on_ready_ok (env : Env)
    (hok : ∀ c ∈ env.channels, c.accessible = true → c.histErr = false ∧ c.fetchErr = false) :
    ∃ d, on_ready env =
      Except.ok ⟨finalCounts env, d, sleepsOf env.channels, sentSummary env⟩ := by
  obtain ⟨d, hd⟩ :=
    goChannels_ok env.maxMb env.now env.lookbackDays env.channels
      ⟨initCounts env.channels, [], []⟩ hok
  refine ⟨d, ?_⟩
  simp only [on_ready, hd]
  rfl

/-! ### Locating one channel's counter after the whole loop -/

theorem lookupCount_applyCounts_untouched (now lb : Int) (cs : List Chan) :
    ∀ (acc : Counts) (k : Nat), (∀ c ∈ cs, c.cid ≠ k) →
    lookupCount (applyCounts now lb cs acc) k = lookupCount acc k := by
  induction cs with
  | nil => intro acc k h; rfl
  | cons c rest ih =>
    intro acc k h
    rw [applyCounts]
    rw [ih _ k (fun c' hc' => h c' (List.mem_cons_of_mem c hc'))]
    by_cases hacc : c.accessible
    · rw [if_pos hacc, lookupCount_incrN_ne _ _ _ _
        (fun hh => h c (List.mem_cons_self c rest) hh.symm)]
    · rw [if_neg hacc]

theorem lookupCount_applyCounts_mem (now lb : Int) (cs : List Chan) :
    ∀ (acc : Counts) (c : Chan) (v : Nat),
    (cs.map Chan.cid).Nodup → c ∈ cs → lookupCount acc c.cid = some v →
    lookupCount (applyCounts now lb cs acc) c.cid =
      some (v + (if c.accessible then chanSuccesses now lb c else 0)) := by
  induction cs with
  | nil => intro acc c v _ hc; cases hc
  | cons c' rest ih =>
    intro acc c v hnd hc hv
    rw [List.map_cons, List.nodup_cons] at hnd
    obtain ⟨hnotin, hndrest⟩ := hnd
    rcases List.mem_cons.mp hc with heq | hmem
    · subst heq
      rw [applyCounts]
      have hrest : ∀ x ∈ rest, x.cid ≠ c.cid := by
        intro x hx hxx
        exact hnotin (hxx ▸ List.mem_map_of_mem Chan.cid hx)
      rw [lookupCount_applyCounts_untouched now lb rest _ _ hrest]
      by_cases hacc : c.accessible
      · rw [if_pos hacc, if_pos hacc]
        exact lookupCount_incrN_self _ _ _ _ hv
      · rw [if_neg hacc, if_neg hacc, hv, Nat.add_zero]
    · have hne : c'.cid ≠ c.cid := by
        intro he
        exact hnotin (he ▸ List.mem_map_of_mem Chan.cid hmem)
      rw [applyCounts]
      apply ih _ c v hndrest hmem
      by_cases hacc : c'.accessible
      · rw [if_pos hacc, lookupCount_incrN_ne _ _ _ _ (fun hh => hne hh.symm)]
        exact hv
      · rw [if_neg hacc]
        exact hv

theorem lookupCount_initCounts (cs : List Chan) (c : Chan) (hc : c ∈ cs) :
    lookupCount (initCounts cs) c.cid = some 0 := by
  induction cs with
  | nil => cases hc
  | cons c' rest ih =>
    by_cases h : c'.cid = c.cid
    · simp [initCounts, lookupCount, h]
    · rcases List.mem_cons.mp hc with heq | hmem
      · subst heq
        exact absurd rfl h
      · simp only [initCounts, List.map_cons, lookupCount, if_neg h]
        exact ih hmem

/-! ### Claim C1: what the per-channel counter actually counts -/

/-- C1 (corrected).  Every configured channel's counter starts at zero,
and at the end of an error-free run it equals the number of successfully
replied *URL replies* of that channel — one increment per recognized,
downloaded and successfully replied URL (`urlSuccess`), summed over the
fetched messages (`chanSuccesses`), not one per successfully processed
message.  (`hnd` makes the association-list counters coincide with the
source's dict; the errors excluded by `hok` abort the run, see C2.) -/
theorem counts_per_successful_reply (env : Env)
    (hnd : (env.channels.map Chan.cid).Nodup)
    (hok : ∀ c ∈ env.channels, c.accessible = true → c.histErr = false ∧ c.fetchErr = false) :
    ∃ r, on_ready env = Except.ok r ∧
      ∀ c ∈ env.channels,
        lookupCount r.counts c.cid =
          some (if c.accessible then chanSuccesses env.now env.lookbackDays c else 0) := by
  obtain ⟨d, hd⟩ := on_ready_ok env hok
  refine ⟨_, hd, ?_⟩
  intro c hc
  show lookupCount (finalCounts env) c.cid = _
  rw [finalCounts]
  have h0 := lookupCount_initCounts env.channels c hc
  have hm := lookupCount_applyCounts_mem env.now env.lookbackDays env.channels
    (initCounts env.channels) c 0 hnd hc h0
  simpa using hm

/-- Witness for C1's corrected statement at a concrete run. -/
theorem counts_per_successful_reply_witness :
    ∃ r, on_ready envC1 = Except.ok r ∧
      ∀ c ∈ envC1.channels,
        lookupCount r.counts c.cid =
          some (if c.accessible then chanSuccesses envC1.now envC1.lookbackDays c else 0) :=
  counts_per_successful_reply envC1 (by decide) (by decide)

/-- C1 counterexample.  One fetched message carrying two recognized
platform URLs, both downloaded and replied successfully: its channel's
count ends at 2, not 1, so a successful message does not add exactly one. -/
theorem count_per_message_counterexample :
    cC1.msgs = [mC1] ∧ mC1.jobs.length = 2 ∧ msgSuccesses mC1 = 2 ∧
    on_ready envC1 =
      Except.ok ⟨[(5, 2)], [], [], some "total 2 msg converted in <#5>"⟩ ∧
    (2 : Nat) ≠ 1 := by
  decide

/-! ### Claim C2: which errors are caught -/

/-- C2 (corrected, positive half).  When no `channel.history` call raises
(download, compression and reply outcomes are arbitrary, channels may be
unresolved), the run completes and, when the log channel resolves and the
send succeeds, a summary is delivered. -/
theorem caught_errors_reach_summary (env : Env)
    (hok : ∀ c ∈ env.channels, c.accessible = true → c.histErr = false ∧ c.fetchErr = false) :
    ∃ r, on_ready env = Except.ok r ∧
      (env.logChannelOk = true → env.sendOk = true → r.summarySent.isSome = true) := by
  obtain ⟨d, hd⟩ := on_ready_ok env hok
  refine ⟨_, hd, ?_⟩
  intro h1 h2
  show (sentSummary env).isSome = true
  simp [sentSummary, h1, h2]

/-- Witness for C2's corrected statement: a run whose oracle outcomes all
stay in the caught classes completes with a summary. -/
theorem caught_errors_reach_summary_witness :
    ∃ r, on_ready envC2w = Except.ok r ∧
      (envC2w.logChannelOk = true → envC2w.sendOk = true → r.summarySent.isSome = true) :=
  caught_errors_reach_summary envC2w (by decide)

/-- C2 counterexample.  An accessible channel whose `channel.history`
call raises: the exception is caught nowhere, the run aborts
(`Except.error`) and the summary step is never reached, although the log
channel was available. -/
theorem history_error_aborts_run :
    cHist.accessible = true ∧ cHist.histErr = true ∧ envC2.logChannelOk = true ∧
    on_ready envC2 = Except.error () := by
  decide

/-! ### Claim C4: the inter-channel pause -/

theorem sleepsOf_eq_replicate (cs : List Chan) :
    sleepsOf cs = List.replicate (cs.dropLast.countP (fun c => c.accessible)) 60 := by
  induction cs with
  | nil => rfl
  | cons c rest ih =>
    cases rest with
    | nil => simp [sleepsOf]
    | cons r rs =>
      rw [sleepsOf, ih, List.dropLast_cons₂, List.countP_cons]
      by_cases hacc : c.accessible
      · simp [hacc, List.replicate_succ]
      · simp [hacc]

/-- C4 (corrected).  In an error-free run the 60-second pause happens
exactly once after every channel that was successfully resolved and is
not the last configured one; a channel skipped as inaccessible triggers
no pause (its `continue` jumps over the sleep), and no pause follows the
last channel. -/
theorem pause_after_resolved_channels (env : Env)
    (hok : ∀ c ∈ env.channels, c.accessible = true → c.histErr = false ∧ c.fetchErr = false) :
    ∃ r, on_ready env = Except.ok r ∧
      r.sleeps = List.replicate (env.channels.dropLast.countP (fun c => c.accessible)) 60 := by
  obtain ⟨d, hd⟩ := on_ready_ok env hok
  exact ⟨_, hd, sleepsOf_eq_replicate env.channels⟩

/-- Witness for C4's corrected statement: accessible, inaccessible,
accessible channels yield exactly one pause. -/
theorem pause_after_resolved_channels_witness :
    (∃ r, on_ready envC4w = Except.ok r ∧
      r.sleeps = List.replicate (envC4w.channels.dropLast.countP (fun c => c.accessible)) 60) ∧
    List.replicate (envC4w.channels.dropLast.countP (fun c => c.accessible)) 60 = [60] :=
  ⟨pause_after_resolved_channels envC4w (by decide), by decide⟩

/-- C4 counterexample.  Two configured channels; the first is resolved as
inaccessible and skipped.  The claim demands a 60-second pause after it
(it is not last), but the run performs no pause at all. -/
theorem skipped_channel_skips_pause :
    envC4.channels.length = 2 ∧ cSkip.accessible = false ∧
    on_ready envC4 =
      Except.ok ⟨[(1, 0), (2, 0)], [], [],
        some "total 0 msg converted in <#1>\ntotal 0 msg converted in <#2>"⟩ := by
  decide

/-! ### Claim C3: per-URL cleanup -/

/-- C3 (corrected).  After one URL's processing, the downloaded original
file is always gone from disk, whatever the compression, reply or size
outcomes.  The derived `compressed_<original>` file is gone in every case
except one: when the size gate fired and the encode stage failed after
leaving a partial output (`EncOutcome.fail (some psz)`), `compress_video`
returns the original path, the cleanup's `video_path != video_file` test
is false, and the partial compressed file of size `psz` survives. -/
theorem cleanup_after_url (cid maxMb : Nat) (j : UrlJob) (counts : Counts) (disk : FileSys)
    (f : String) (sz : Nat)
    (hp : get_platform j.url ≠ "unknown")
    (hdl : j.dl = some (f, sz))
    (hfresh : lookupSize disk ("compressed_" ++ f) = none) :
    ∃ c2 d2, processUrl cid maxMb j counts disk = Except.ok (c2, d2) ∧
      lookupSize d2 f = none ∧
      lookupSize d2 ("compressed_" ++ f) =
        (if maxMb * bytesPerMB < sz then
           (match j.enc with
            | .fail (some psz) => some psz
            | _ => none)
         else none) := by
  have hne : ("compressed_" ++ f) ≠ f := compressed_ne f
  have hne' : f ≠ ("compressed_" ++ f) := fun hh => hne hh.symm
  by_cases hsz : maxMb * bytesPerMB < sz
  · cases henc : j.enc with
    | ok osz =>
      refine ⟨(if j.replyOk then incrCount counts cid else counts),
        removeFile (removeFile (writeFile (writeFile disk f sz) ("compressed_" ++ f) osz) f)
          ("compressed_" ++ f), ?_, ?_, ?_⟩
      · have e1 : lookupSize (writeFile (writeFile disk f sz) ("compressed_" ++ f) osz) f
            = some sz := by
          rw [lookupSize_writeFile_ne _ _ _ _ hne', lookupSize_writeFile_self]
        have e2 : lookupSize
            (removeFile (writeFile (writeFile disk f sz) ("compressed_" ++ f) osz) f)
            ("compressed_" ++ f) = some osz := by
          rw [lookupSize_removeFile_ne _ _ _ hne, lookupSize_writeFile_self]
        simp [processUrl, hp, hdl, hsz, henc, compress_video, lookupSize_writeFile_self,
              Nat.not_le.mpr hsz, existsFile, e1, e2, hne]
      · rw [lookupSize_removeFile_ne _ _ _ hne', lookupSize_removeFile_self]
      · rw [lookupSize_removeFile_self, if_pos hsz]
    | fail pOpt =>
      cases pOpt with
      | none =>
        refine ⟨(if j.replyOk then incrCount counts cid else counts),
          removeFile (writeFile disk f sz) f, ?_, ?_, ?_⟩
        · simp [processUrl, hp, hdl, hsz, henc, compress_video, lookupSize_writeFile_self,
                Nat.not_le.mpr hsz, existsFile]
        · rw [lookupSize_removeFile_self]
        · rw [lookupSize_removeFile_ne _ _ _ hne, lookupSize_writeFile_ne _ _ _ _ hne, hfresh,
              if_pos hsz]
      | some psz =>
        refine ⟨(if j.replyOk then incrCount counts cid else counts),
          removeFile (writeFile (writeFile disk f sz) ("compressed_" ++ f) psz) f, ?_, ?_, ?_⟩
        · have e1 : lookupSize (writeFile (writeFile disk f sz) ("compressed_" ++ f) psz) f
              = some sz := by
            rw [lookupSize_writeFile_ne _ _ _ _ hne', lookupSize_writeFile_self]
          simp [processUrl, hp, hdl, hsz, henc, compress_video, lookupSize_writeFile_self,
                Nat.not_le.mpr hsz, existsFile, e1]
        · rw [lookupSize_removeFile_self]
        · rw [lookupSize_removeFile_ne _ _ _ hne, lookupSize_writeFile_self, if_pos hsz]
  · refine ⟨(if j.replyOk then incrCount counts cid else counts),
      removeFile (writeFile disk f sz) f, ?_, ?_, ?_⟩
    · simp [processUrl, hp, hdl, hsz, existsFile, lookupSize_writeFile_self]
    · rw [lookupSize_removeFile_self]
    · rw [lookupSize_removeFile_ne _ _ _ hne, lookupSize_writeFile_ne _ _ _ _ hne, hfresh,
          if_neg hsz]

/-- Witness for C3's corrected statement: a successfully compressed and
replied oversized download leaves nothing on disk. -/
theorem cleanup_after_url_witness :
    ∃ c2 d2, processUrl 7 MAX_DISCORD_FILESIZE_MB jC3w [] [] = Except.ok (c2, d2) ∧
      lookupSize d2 "w.mp4" = none ∧
      lookupSize d2 ("compressed_" ++ "w.mp4") =
        (if MAX_DISCORD_FILESIZE_MB * bytesPerMB < 9437184 then
           (match jC3w.enc with
            | .fail (some psz) => some psz
            | _ => none)
         else none) :=
  cleanup_after_url 7 MAX_DISCORD_FILESIZE_MB jC3w [] [] "w.mp4" 9437184
    (by decide) (by decide) (by decide)

/-- C3 counterexample.  A 9 MiB download whose compression fails after
writing a 999-byte partial `compressed_v.mp4` and whose reply fails: the
cleanup removes the original but the partial compressed artifact — whose
path differs from the original and which exists — survives on disk. -/
theorem partial_compressed_file_survives :
    jC3.enc = EncOutcome.fail (some 999) ∧
    processUrl 7 MAX_DISCORD_FILESIZE_MB jC3 [] [] =
      Except.ok ([], [("compressed_v.mp4", 999)]) ∧
    existsFile [("compressed_v.mp4", 999)] ("compressed_" ++ "v.mp4") = true ∧
    ("compressed_" ++ "v.mp4") ≠ "v.mp4" := by
  decide

/-! ### Claim C9: the summary message -/

theorem applyCounts_keys (now lb : Int) (cs : List Chan) :
    ∀ acc : Counts, (applyCounts now lb cs acc).map Prod.fst = acc.map Prod.fst := by
  induction cs with
  | nil => intro acc; rfl
  | cons c rest ih =>
    intro acc
    rw [applyCounts, ih]
    by_cases hacc : c.accessible
    · rw [if_pos hacc, incrN_keys]
    · rw [if_neg hacc]

theorem initCounts_keys (cs : List Chan) :
    (initCounts cs).map Prod.fst = cs.map Chan.cid := by
  rw [initCounts, List.map_map]
  rfl

theorem intercalate_go_decomp (s : String) (as : List String) :
    ∀ acc, ∃ t, String.intercalate.go acc s as = acc ++ t := by
  induction as with
  | nil => intro acc; exact ⟨"", (String.append_empty acc).symm⟩
  | cons a as ih =>
    intro acc
    obtain ⟨t, ht⟩ := ih (acc ++ s ++ a)
    refine ⟨s ++ a ++ t, ?_⟩
    rw [String.intercalate.go, ht, String.append_assoc, String.append_assoc,
        String.append_assoc]

theorem summaryText_ne_empty (k v : Nat) (rest : Counts) :
    summaryText ((k, v) :: rest) ≠ "" := by
  have h6 : ("total " : String).length = 6 := rfl
  have hlen : 0 < (summaryLine k v).length := by
    rw [summaryLine, String.length_append, String.length_append, String.length_append,
        String.length_append, h6]
    omega
  obtain ⟨t, ht⟩ :=
    intercalate_go_decomp "\n" (rest.map (fun p => summaryLine p.1 p.2)) (summaryLine k v)
  rw [summaryText, List.map_cons, String.intercalate, ht]
  intro hcontra
  have hzero : (summaryLine k v ++ t).length = 0 := by rw [hcontra]; rfl
  rw [String.length_append] at hzero
  omega

/-- C9 (confirmed).  In an error-free run with a resolvable log channel
and a successful send, the delivered summary is the single message made
of one `summaryLine` per configured channel — `"total <count> msg
converted in <#channel-id>"` — joined by newlines, with the counter list
keyed exactly by the configured channel ids in configuration order.
(`hnd` makes the association-list counters coincide with the source's
dict.) -/
theorem summary_format_spec (env : Env)
    (hnd : (env.channels.map Chan.cid).Nodup)
    (hok : ∀ c ∈ env.channels, c.accessible = true → c.histErr = false ∧ c.fetchErr = false)
    (hne : env.channels ≠ [])
    (hlog : env.logChannelOk = true) (hsend : env.sendOk = true) :
    ∃ r, on_ready env = Except.ok r ∧
      r.counts.map Prod.fst = env.channels.map Chan.cid ∧
      r.summarySent =
        some (String.intercalate "\n" (r.counts.map (fun p => summaryLine p.1 p.2))) := by
  obtain ⟨d, hd⟩ := on_ready_ok env hok
  have hkeys : (finalCounts env).map Prod.fst = env.channels.map Chan.cid := by
    rw [finalCounts, applyCounts_keys, initCounts_keys]
  refine ⟨_, hd, hkeys, ?_⟩
  show sentSummary env = some (summaryText (finalCounts env))
  cases hfc : finalCounts env with
  | nil =>
    exfalso
    rw [hfc] at hkeys
    cases hch : env.channels with
    | nil => exact hne hch
    | cons a l =>
      rw [hch] at hkeys
      simp at hkeys
  | cons e rest =>
    obtain ⟨k, v⟩ := e
    rw [sentSummary, if_pos (by rw [hlog]), if_pos (by rw [hsend]), hfc,
        if_neg (summaryText_ne_empty k v rest)]

/-- Witness for C9 realizing the spec's own example: counts A ↦ 2, B ↦ 0
yield exactly the two lines of the claim. -/
theorem summary_format_spec_witness :
    (∃ r, on_ready envC9 = Except.ok r ∧
      r.counts.map Prod.fst = envC9.channels.map Chan.cid ∧
      r.summarySent =
        some (String.intercalate "\n" (r.counts.map (fun p => summaryLine p.1 p.2)))) ∧
    on_ready envC9 =
      Except.ok ⟨[(1, 2), (2, 0)], [], [60],
        some "total 2 msg converted in <#1>\ntotal 0 msg converted in <#2>"⟩ :=
  ⟨summary_format_spec envC9 (by decide) (by decide) (by decide) rfl rfl, by decide⟩

/-! ### Claim C5: the resume cursor -/

theorem find?_fromBot_max (l : List Msg)
    (hl : l.Pairwise (fun a b => b.createdAt ≤ a.createdAt)) (m : Msg)
    (hf : l.find? (fun x => x.fromBot) = some m) :
    m.fromBot = true ∧ ∀ m2 ∈ l, m2.fromBot = true → m2.createdAt ≤ m.createdAt := by
  induction l with
  | nil => cases hf
  | cons x xs ih =>
    rw [List.pairwise_cons] at hl
    obtain ⟨hx, hxs⟩ := hl
    by_cases hb : x.fromBot
    · rw [List.find?_cons_of_pos _ hb] at hf
      have hxm : x = m := by injection hf
      subst hxm
      refine ⟨hb, ?_⟩
      intro m2 hm2 hbot
      rcases List.mem_cons.mp hm2 with heq | hm2'
      · exact heq ▸ le_refl _
      · exact hx m2 hm2'
    · rw [List.find?_cons_of_neg _ hb] at hf
      obtain ⟨hmb, hmax⟩ := ih hxs hf
      refine ⟨hmb, ?_⟩
      intro m2 hm2 hbot
      rcases List.mem_cons.mp hm2 with heq | hm2'
      · exact absurd (heq ▸ hbot) hb
      · exact hmax m2 hm2' hbot

/-- C5 (confirmed).  For a channel whose history is chronologically
ordered: when the backward scan of the newest 500 messages finds a
self-authored message, the Resume Cursor is that message's creation time
plus one second and that message is the most recent self-authored one in
the scanned window; otherwise the cursor is `now` minus the lookback
window (`LOOKBACK_DAYS` days, whose source default is 3).  The fetch then
takes exactly the messages created strictly after the cursor, oldest
first. -/
theorem resume_cursor_spec (now lb : Int) (c : Chan)
    (hsorted : c.msgs.Pairwise (fun a b => a.createdAt ≤ b.createdAt)) :
    (∀ m, (c.msgs.reverse.take 500).find? (fun x => x.fromBot) = some m →
        resumeCursor now lb c.msgs.reverse = m.createdAt + 1 ∧
        m.fromBot = true ∧
        ∀ m2 ∈ c.msgs.reverse.take 500, m2.fromBot = true → m2.createdAt ≤ m.createdAt) ∧
    ((c.msgs.reverse.take 500).find? (fun x => x.fromBot) = none →
        resumeCursor now lb c.msgs.reverse = now - lb * 86400) ∧
    (fetchedMsgs now lb c =
      c.msgs.filter (fun m => resumeCursor now lb c.msgs.reverse < m.createdAt)) ∧
    defaultLookbackDays = 3 := by
  have hrev : (c.msgs.reverse.take 500).Pairwise (fun a b => b.createdAt ≤ a.createdAt) := by
    apply List.Pairwise.sublist (List.take_sublist 500 c.msgs.reverse)
    exact List.pairwise_reverse.mpr hsorted
  refine ⟨?_, ?_, rfl, rfl⟩
  · intro m hf
    have hmax := find?_fromBot_max _ hrev m hf
    refine ⟨?_, hmax.1, hmax.2⟩
    rw [resumeCursor, hf]
  · intro hf
    rw [resumeCursor, hf]

/-- Witness for C5: a bot message at time 10 followed by a user message
at time 20 gives cursor 11, and only the user message is fetched. -/
theorem resume_cursor_spec_witness :
    resumeCursor 100 3 cC5.msgs.reverse = 10 + 1 ∧
    fetchedMsgs 100 3 cC5 = [⟨false, 20, []⟩] := by
  have h := (resume_cursor_spec 100 3 cC5 (by decide)).1 ⟨true, 10, []⟩ (by decide)
  exact ⟨h.1, by decide⟩

end VideoBot
